import Mathlib

/-!
Verification development for the config-app repository: a versioned
configuration store (namespaces, versioned schemas, config entries with
history) with a secret-reference resolution engine and lookup/search over
stored values.

The Python sources are shallowly embedded below:
- JSON-like dynamic values are the inductive `Json` (floating-point numbers
  are out of scope; JSON numbers are modelled as integers);
- `app/keyvault.py` (`resolve_secrets`, `has_vault_references`);
- the value-level scan parts of `app/routers/reference_data.py`
  (`lookup_item_in_array`, `search_in_config`) and their fetch wrappers;
- the entity store (`app/models.py`) as explicit lists of rows with the
  soft-delete timestamp abstracted to a Boolean flag (query logic only ever
  tests whether `deleted_at` is null), and the router functions of
  `app/routers/configs.py`, `app/routers/schemas.py`,
  `app/routers/namespaces.py` as explicit state-passing functions;
- JSON-Schema validation is delegated by the source to the external
  `jsonschema` library, so it is modelled as a Boolean-valued parameter
  `Validator` supplied to the operations that validate.
-/

/-- Dynamic JSON-like config value: object, array, string, integer number,
boolean, null.  Mirrors the duck-typed Python values handled by the source
(floats are out of scope). -/
inductive Json where
  | null : Json
  | bool (b : Bool) : Json
  | num (n : Int) : Json
  | str (s : String) : Json
  | arr (xs : List Json) : Json
  | obj (fields : List (String × Json)) : Json

/-- Characters of the `vault://` marker used by `app/keyvault.py`. -/
def vaultPat : List Char := "vault://".data

/-- Model of Python `re.match(r'^vault://(.+)$', s)`: the pattern must match
a prefix of `s`; `.+` is one or more non-newline characters; `$` matches at
the end of the string or just before a single newline that ends the string.
Returns the captured group (the secret name) when the regex matches. -/
def vaultMatchChars (cs : List Char) : Option (List Char) :=
  if vaultPat.isPrefixOf cs then
    let rest := cs.drop 8
    if rest.isEmpty then none
    else if !rest.contains '\n' then some rest
    else
      let core := rest.dropLast
      if rest.getLast? = some '\n' && !core.isEmpty && !core.contains '\n' then
        some core
      else none
  else none

/-- String-level wrapper for `vaultMatchChars`. -/
def vaultMatch (s : String) : Option String :=
  (vaultMatchChars s.data).map fun cs => String.mk cs

/-- External secret provider (`KeyVaultClient.get_secret`): either a secret
value or a failure message (the Python code raises `Exception(msg)`; the
caller catches any exception). -/
def SecretProvider : Type := String → Except String String

mutual
/-- Embedding of `resolve_secrets` from `app/keyvault.py`: recursively maps
over dict values and list items; a string matching `^vault://(.+)$` is
replaced by the provider's secret, or by the inline `[ERROR: ...]` marker
when the provider fails; everything else is returned as-is. -/
def resolve_secrets (p : SecretProvider) : Json → Json
  | .null => .null
  | .bool b => .bool b
  | .num n => .num n
  | .str s =>
    match vaultMatch s with
    | some name =>
      match p name with
      | .ok secret => .str secret
      | .error e => .str ("[ERROR: " ++ e ++ "]")
    | none => .str s
  | .arr xs => .arr (resolveSecretsList p xs)
  | .obj fs => .obj (resolveSecretsFields p fs)

/-- List part of `resolve_secrets` (the list comprehension over items). -/
def resolveSecretsList (p : SecretProvider) : List Json → List Json
  | [] => []
  | x :: xs => resolve_secrets p x :: resolveSecretsList p xs

/-- Dict part of `resolve_secrets` (the dict comprehension over values). -/
def resolveSecretsFields (p : SecretProvider) :
    List (String × Json) → List (String × Json)
  | [] => []
  | (k, v) :: fs => (k, resolve_secrets p v) :: resolveSecretsFields p fs
end

/-- One-character escaping of Python's `json.dumps` (default options,
`ensure_ascii=True`): quote and backslash get a backslash escape, the five
short control escapes are used, all other control characters and all
non-ASCII characters become `\uXXXX` (lowercase hex, surrogate pairs above
the BMP); printable ASCII is copied verbatim. -/
def escChar (c : Char) : List Char :=
  if c = '"' then ['\\', '"']
  else if c = '\\' then ['\\', '\\']
  else if c = '\n' then ['\\', 'n']
  else if c = '\r' then ['\\', 'r']
  else if c = '\t' then ['\\', 't']
  else if c = '\x08' then ['\\', 'b']
  else if c = '\x0c' then ['\\', 'f']
  else if c.toNat < 0x20 || c.toNat > 0x7e then
    let hexDigit : Nat → Char := fun n =>
      if n < 10 then Char.ofNat ('0'.toNat + n) else Char.ofNat ('a'.toNat + n - 10)
    let hex4 : Nat → List Char := fun n =>
      [hexDigit (n / 4096 % 16), hexDigit (n / 256 % 16),
       hexDigit (n / 16 % 16), hexDigit (n % 16)]
    if c.toNat ≤ 0xffff then '\\' :: 'u' :: hex4 c.toNat
    else
      let n := c.toNat - 0x10000
      ('\\' :: 'u' :: hex4 (0xd800 + n / 0x400)) ++
        ('\\' :: 'u' :: hex4 (0xdc00 + n % 0x400))
  else [c]

/-- Escape a whole character sequence as `json.dumps` does inside quotes. -/
def escChars : List Char → List Char
  | [] => []
  | c :: cs => escChar c ++ escChars cs

/-- Join serialized chunks with a separator, as Python's `', '.join`. -/
def joinSep (sep : List Char) : List (List Char) → List Char
  | [] => []
  | [x] => x
  | x :: xs => x ++ sep ++ joinSep sep xs

mutual
/-- Model of Python `json.dumps` (default separators `', '` and `': '`,
`ensure_ascii=True`) on the `Json` model, producing the character list of
the serialized form. -/
def dumpsChars : Json → List Char
  | .null => "null".data
  | .bool true => "true".data
  | .bool false => "false".data
  | .num n => (toString n).data
  | .str s => '"' :: escChars s.data ++ ['"']
  | .arr xs => '[' :: joinSep [',', ' '] (dumpsList xs) ++ [']']
  | .obj fs => '\x7b' :: joinSep [',', ' '] (dumpsFields fs) ++ ['\x7d']

/-- Serialized chunks of the elements of an array. -/
def dumpsList : List Json → List (List Char)
  | [] => []
  | x :: xs => dumpsChars x :: dumpsList xs

/-- Serialized `"key": value` chunks of the fields of an object. -/
def dumpsFields : List (String × Json) → List (List Char)
  | [] => []
  | (k, v) :: fs =>
    ('"' :: escChars k.data ++ ['"', ':', ' '] ++ dumpsChars v) :: dumpsFields fs
end

/-- Boolean substring test (`needle in hay` on Python strings). -/
def containsSeq (needle hay : List Char) : Bool :=
  decide (needle <:+: hay)

/-- Embedding of `has_vault_references` from `app/keyvault.py`: serialize
the whole value with `json.dumps` and test for the substring `vault://`. -/
def has_vault_references (v : Json) : Bool :=
  containsSeq vaultPat (dumpsChars v)


/-- Error taxonomy of the routers: `HTTPException(404)` for missing
entities, `HTTPException(400)` with the duplicate-key detail (Conflict),
with the validation detail (ValidationFailed), or with the not-an-array
detail (TypeMismatch); `internalError` models the uncaught exception that
would escape `update_config` if an entry's schema row were absent. -/
inductive Err where
  | notFound : Err
  | conflict : Err
  | validationFailed : Err
  | typeMismatch : Err
  | internalError : Err
deriving DecidableEq

/-- Quote-and-escape part of Python `repr` on strings: single quotes are
preferred, switching to double quotes when the string contains a single
quote but no double quote; backslash, the chosen quote and the common
control characters are escaped.  (Non-printable and non-ASCII repr edge
cases are out of scope; no claim depends on them.) -/
def pyReprStr (s : String) : List Char :=
  let q : Char :=
    if s.data.contains '\'' && !s.data.contains '"' then '"' else '\''
  let esc : Char → List Char := fun c =>
    if c = '\\' then ['\\', '\\']
    else if c = q then ['\\', q]
    else if c = '\n' then ['\\', 'n']
    else if c = '\r' then ['\\', 'r']
    else if c = '\t' then ['\\', 't']
    else [c]
  q :: (s.data.foldr (fun c acc => esc c ++ acc) []) ++ [q]

mutual
/-- Python `repr` of a decoded-JSON value (how `str` prints dicts/lists):
`None`, `True`, `False`, decimal integers, quoted strings, `[a, b]`,
`{k: v, ...}`. -/
def pyRepr : Json → List Char
  | .null => "None".data
  | .bool true => "True".data
  | .bool false => "False".data
  | .num n => (toString n).data
  | .str s => pyReprStr s
  | .arr xs => '[' :: joinSep [',', ' '] (pyReprList xs) ++ [']']
  | .obj fs => '\x7b' :: joinSep [',', ' '] (pyReprFields fs) ++ ['\x7d']

/-- Element chunks of `repr` of a list. -/
def pyReprList : List Json → List (List Char)
  | [] => []
  | x :: xs => pyRepr x :: pyReprList xs

/-- `key: value` chunks of `repr` of a dict. -/
def pyReprFields : List (String × Json) → List (List Char)
  | [] => []
  | (k, v) :: fs => (pyReprStr k ++ [':', ' '] ++ pyRepr v) :: pyReprFields fs
end

/-- Python `str()` of a decoded-JSON value: strings print verbatim, scalars
print as `None`/`True`/`False`/decimal, containers print as their `repr`. -/
def pyStr : Json → String
  | .null => "None"
  | .bool true => "True"
  | .bool false => "False"
  | .num n => toString n
  | .str s => s
  | .arr xs => String.mk (pyRepr (.arr xs))
  | .obj fs => String.mk (pyRepr (.obj fs))

/-- Python `item.get(field)` on a dict decoded from JSON: the stored value,
or `None` when the key is absent (decoded dicts have unique keys). -/
def dictGet (fs : List (String × Json)) (k : String) : Json :=
  match fs.find? (fun kv => kv.1 == k) with
  | some kv => kv.2
  | none => .null

/-- Loop body of `lookup_item_in_array` in
`app/routers/reference_data.py`: scan in order for the first dict item
whose `id_field` value, via `str()` coercion, equals the (string) id. -/
def lookupScan (idField target : String) : List Json → Except Err Json
  | [] => .error .notFound
  | item :: rest =>
    match item with
    | .obj fs =>
      if pyStr (dictGet fs idField) == target then .ok item
      else lookupScan idField target rest
    | _ => lookupScan idField target rest

/-- Value-level part of `lookup_item_in_array` (the spec's
`lookupByField(value, fieldName, targetId)`): reject non-arrays with the
not-an-array 400 (TypeMismatch), otherwise scan the items. -/
def lookupByField (value : Json) (idField target : String) : Except Err Json :=
  match value with
  | .arr xs => lookupScan idField target xs
  | _ => .error .typeMismatch

/-- Result shape of `search_in_config`: the `results`/`count`/`query`
payload. -/
structure SearchResult where
  results : List Json
  count : Nat
  query : String

/-- Lowercasing of a serialized form, modelling Python `str.lower` (ASCII
case mapping; `json.dumps` output is ASCII by construction). -/
def lowerChars (cs : List Char) : List Char :=
  cs.map Char.toLower

/-- Value-level part of `search_in_config` in
`app/routers/reference_data.py` (the spec's `search(value, query)`):
case-insensitive substring test over `json.dumps` of the value; arrays are
filtered element-wise, any other type yields the whole value as the single
match. -/
def searchValue (value : Json) (q : String) : SearchResult :=
  let configStr := lowerChars (dumpsChars value)
  let qLower := lowerChars q.data
  if containsSeq qLower configStr then
    match value with
    | .arr xs =>
      let results := xs.filter fun item =>
        containsSeq qLower (lowerChars (dumpsChars item))
      ⟨results, results.length, q⟩
    | _ => ⟨[value], 1, q⟩
  else ⟨[], 0, q⟩




/-- Row of the `namespaces` table (`app/models.py`).  The nullable
`deleted_at` timestamp is abstracted to the Boolean `deleted` (the code
only ever tests whether it is null). -/
structure NamespaceRow where
  id : Nat
  name : String
  description : String
  deleted : Bool
deriving DecidableEq

/-- Row of the `config_schemas` table.  `struct` is the source's
`structure` column (a Lean keyword). -/
structure SchemaRow where
  id : Nat
  name : String
  description : String
  version : Nat
  struct : Json
  is_active : Bool
  deleted : Bool

/-- Row of the `config_entries` table. -/
structure EntryRow where
  id : Nat
  namespace_id : Nat
  schema_id : Nat
  key : String
  value : Json
  version : Nat
  deleted : Bool

/-- Row of the `config_history` table. -/
structure HistoryRow where
  id : Nat
  config_id : Nat
  value : Json
  version : Nat

/-- The entity store: the four tables as lists of rows in insertion order,
plus the autoincrement counters for primary keys.  Every row-level
uniqueness that the code relies on comes from the unique constraints
declared in `app/models.py`. -/
structure Store where
  namespaces : List NamespaceRow
  schemas : List SchemaRow
  entries : List EntryRow
  histories : List HistoryRow
  nextNamespaceId : Nat
  nextSchemaId : Nat
  nextEntryId : Nat
  nextHistoryId : Nat

/-- The store with no rows. -/
def emptyStore : Store :=
  ⟨[], [], [], [], 1, 1, 1, 1⟩

/-- Validation of a value against a schema structure.  The source delegates
to the external `jsonschema` library (`validate_config_value` in
`app/routers/configs.py` raises ValidationFailed when the library raises),
so validation is modelled as an arbitrary Boolean function of the value and
the schema structure. -/
def Validator : Type := Json → Json → Bool

/-- Replace the first row matched by `q` (the row the SQLAlchemy query
returned and the handler then mutated) with `y`. -/
def replaceFirst {α : Type} (q : α → Bool) (y : α) : List α → List α
  | [] => []
  | x :: xs => if q x then y :: xs else x :: replaceFirst q y xs

/-- Embedding of `create_namespace` (`app/routers/namespaces.py`): the
duplicate-name check queries all rows, deleted or not (matching the
table-wide unique constraint on `name`). -/
def create_namespace (name description : String) (σ : Store) :
    Except Err NamespaceRow × Store :=
  match σ.namespaces.find? (fun ns => ns.name == name) with
  | some _ => (.error .conflict, σ)
  | none =>
    let ns : NamespaceRow := ⟨σ.nextNamespaceId, name, description, false⟩
    (.ok ns,
      { σ with
        namespaces := σ.namespaces ++ [ns]
        nextNamespaceId := σ.nextNamespaceId + 1 })

/-- Embedding of `delete_namespace`: soft delete, visible rows only. -/
def delete_namespace (nsId : Nat) (σ : Store) : Except Err Nat × Store :=
  match σ.namespaces.find? (fun ns => ns.id == nsId && !ns.deleted) with
  | none => (.error .notFound, σ)
  | some ns =>
    (.ok nsId,
      { σ with
        namespaces :=
          replaceFirst (fun x => x.id == nsId && !x.deleted)
            { ns with deleted := true } σ.namespaces })

/-- Largest `version` among a list of schema rows (the code reads the first
row of the query ordered by `version` descending). -/
def maxVer (l : List SchemaRow) : Nat :=
  l.foldr (fun sc m => max sc.version m) 0

/-- Embedding of `create_schema` (`app/routers/schemas.py`).  The request
model `ConfigSchemaCreate` (`app/schemas.py`) carries only `name` and
`structure`, but line 37 of the handler reads `schema.description` — an
attribute the request model does not define — so every call raises
`AttributeError`.  By then the handler has queried the existing versions of
the name, computed max version + 1 and flipped the existing rows inactive
in the session, but the exception fires while the new row is being built,
before `db.add`/`db.commit`, and closing the request's session rolls the
uncommitted flips back.  Observable behaviour: an uncaught exception
(HTTP 500) with the store unchanged. -/
def create_schema (name : String) (struct : Json) (σ : Store) :
    Except Err SchemaRow × Store :=
  let existing := σ.schemas.filter (fun sc => sc.name == name)
  let _newVersion := if existing.isEmpty then 1 else maxVer existing + 1
  let _flipped := σ.schemas.map fun sc =>
    if sc.name == name then { sc with is_active := false } else sc
  (.error .internalError, σ)

/-- Embedding of `delete_schema`: soft delete, visible rows only. -/
def delete_schema (schemaId : Nat) (σ : Store) : Except Err Nat × Store :=
  match σ.schemas.find? (fun sc => sc.id == schemaId && !sc.deleted) with
  | none => (.error .notFound, σ)
  | some sc =>
    (.ok schemaId,
      { σ with
        schemas :=
          replaceFirst (fun x => x.id == schemaId && !x.deleted)
            { sc with deleted := true } σ.schemas })

/-- Embedding of `create_config` (`app/routers/configs.py`).  Faithful to
the source's checks: the namespace and schema lookups filter by id only
(no `deleted_at` filter), the duplicate-key check queries all entries of
the (namespace, key) pair (deleted or not), then the value is validated,
and on success the entry (version 1) and its history record (version 1)
are persisted. -/
def create_config (val : Validator) (namespace_id schema_id : Nat)
    (key : String) (value : Json) (σ : Store) : Except Err EntryRow × Store :=
  match σ.namespaces.find? (fun ns => ns.id == namespace_id) with
  | none => (.error .notFound, σ)
  | some _ =>
    match σ.schemas.find? (fun sc => sc.id == schema_id) with
    | none => (.error .notFound, σ)
    | some sch =>
      match σ.entries.find? (fun e => e.namespace_id == namespace_id && e.key == key) with
      | some _ => (.error .conflict, σ)
      | none =>
        if val value sch.struct then
          let e : EntryRow := ⟨σ.nextEntryId, namespace_id, schema_id, key, value, 1, false⟩
          let h : HistoryRow := ⟨σ.nextHistoryId, e.id, value, 1⟩
          (.ok e,
            { σ with
              entries := σ.entries ++ [e]
              histories := σ.histories ++ [h]
              nextEntryId := σ.nextEntryId + 1
              nextHistoryId := σ.nextHistoryId + 1 })
        else (.error .validationFailed, σ)

/-- Embedding of `update_config` (`app/routers/configs.py`): fetch the
live entry, re-fetch its own `schema_id` (not the latest version of the
schema name), validate, then bump the version, replace the value and
append the history record at the new version.  A missing schema row would
raise an uncaught `AttributeError` in the source (`internalError`). -/
def update_config (val : Validator) (config_id : Nat) (value : Json)
    (σ : Store) : Except Err EntryRow × Store :=
  match σ.entries.find? (fun e => e.id == config_id && !e.deleted) with
  | none => (.error .notFound, σ)
  | some e =>
    match σ.schemas.find? (fun sc => sc.id == e.schema_id) with
    | none => (.error .internalError, σ)
    | some sch =>
      if val value sch.struct then
        let e' := { e with value := value, version := e.version + 1 }
        let h : HistoryRow := ⟨σ.nextHistoryId, e.id, value, e.version + 1⟩
        (.ok e',
          { σ with
            entries := replaceFirst (fun x => x.id == config_id && !x.deleted) e' σ.entries
            histories := σ.histories ++ [h]
            nextHistoryId := σ.nextHistoryId + 1 })
      else (.error .validationFailed, σ)

/-- Embedding of `delete_config`: soft delete, visible rows only; a second
call on the same id finds nothing and fails with 404. -/
def delete_config (config_id : Nat) (σ : Store) : Except Err Nat × Store :=
  match σ.entries.find? (fun e => e.id == config_id && !e.deleted) with
  | none => (.error .notFound, σ)
  | some e =>
    (.ok config_id,
      { σ with
        entries :=
          replaceFirst (fun x => x.id == config_id && !x.deleted)
            { e with deleted := true } σ.entries })

/-- Embedding of `read_configs` (list endpoint): non-deleted entries,
optionally filtered by namespace id — via Python truthiness, so a filter
value of `0` is ignored — then offset/limit pagination. -/
def read_configs (skip limit : Nat) (namespaceFilter : Option Nat)
    (σ : Store) : List EntryRow :=
  let base := σ.entries.filter (fun e => !e.deleted)
  let filtered :=
    match namespaceFilter with
    | some n => if n == 0 then base else base.filter (fun e => e.namespace_id == n)
    | none => base
  (filtered.drop skip).take limit

/-- Embedding of `read_config` (get-by-id endpoint): non-deleted only. -/
def read_config (config_id : Nat) (σ : Store) : Except Err EntryRow :=
  match σ.entries.find? (fun e => e.id == config_id && !e.deleted) with
  | none => .error .notFound
  | some e => .ok e

/-- Response payload of `get_reference_data` (without `updated_at`, which
the model does not track).  `nspace` is the source's `namespace` field (a
Lean keyword). -/
structure RefData where
  nspace : String
  key : String
  value : Json
  version : Nat

/-- Namespace-name-and-key fetch shared by the three `/reference` handlers
in `app/routers/reference_data.py`.  Faithful to the source: neither the
namespace lookup nor the entry lookup filters on `deleted_at`. -/
def referenceFetch (nsName key : String) (σ : Store) : Except Err EntryRow :=
  match σ.namespaces.find? (fun ns => ns.name == nsName) with
  | none => .error .notFound
  | some ns =>
    match σ.entries.find? (fun e => e.namespace_id == ns.id && e.key == key) with
    | none => .error .notFound
    | some cfg => .ok cfg

/-- Embedding of `get_reference_data`: fetch by namespace name and key,
optionally resolving `vault://` references. -/
def get_reference_data (p : SecretProvider) (nsName key : String)
    (resolveVault : Bool) (σ : Store) : Except Err RefData :=
  match referenceFetch nsName key σ with
  | .error e => .error e
  | .ok cfg =>
    .ok ⟨nsName, key,
      if resolveVault then resolve_secrets p cfg.value else cfg.value,
      cfg.version⟩

/-- Embedding of `lookup_item_in_array` (the full handler): fetch, then
scan the stored value. -/
def lookup_item_in_array (nsName key target idField : String)
    (σ : Store) : Except Err Json :=
  match referenceFetch nsName key σ with
  | .error e => .error e
  | .ok cfg => lookupByField cfg.value idField target

/-- Embedding of `search_in_config` (the full handler): fetch, then search
the stored value. -/
def search_in_config (nsName key q : String) (σ : Store) :
    Except Err SearchResult :=
  match referenceFetch nsName key σ with
  | .error e => .error e
  | .ok cfg => .ok (searchValue cfg.value q)

/-- Claim-shaped reference matcher (C6 as amended), character level: a
string consisting of `vault://` followed by a non-empty name containing no
newline, optionally followed by one trailing newline which is not part of
the name. -/
def vaultNameSpecChars (cs : List Char) : Option (List Char) :=
  if vaultPat.isPrefixOf cs then
    let rest := cs.drop 8
    let core := if rest.getLast? = some '\n' then rest.dropLast else rest
    if !core.isEmpty && !core.contains '\n' then some core else none
  else none

/-- String-level wrapper for `vaultNameSpecChars`. -/
def vaultNameSpec (s : String) : Option String :=
  (vaultNameSpecChars s.data).map fun cs => String.mk cs

mutual
/-- Does the value contain a string (leaf or object key) with `vault://`
as a substring?  This is the hypothesis shape of the round-trip claim:
"a value with no `vault://` strings anywhere in its structure". -/
def hasVaultString : Json → Bool
  | .null => false
  | .bool _ => false
  | .num _ => false
  | .str s => containsSeq vaultPat s.data
  | .arr xs => hasVaultStringList xs
  | .obj fs => hasVaultStringFields fs

/-- Array part of `hasVaultString`. -/
def hasVaultStringList : List Json → Bool
  | [] => false
  | x :: xs => hasVaultString x || hasVaultStringList xs

/-- Object part of `hasVaultString` (keys are strings in the structure,
so they count). -/
def hasVaultStringFields : List (String × Json) → Bool
  | [] => false
  | (k, v) :: fs =>
    containsSeq vaultPat k.data || hasVaultString v || hasVaultStringFields fs
end

/-- Claim-shaped lookup (C8's wording): the first element whose `idField`
attribute, coerced to a string, equals the target id; TypeMismatch for a
non-array; NotFound when no element matches. -/
def lookupByFieldSpec (value : Json) (idField target : String) :
    Except Err Json :=
  match value with
  | .arr xs =>
    match xs.find? (fun item =>
        match item with
        | .obj fs => pyStr (dictGet fs idField) == target
        | _ => false) with
    | some item => .ok item
    | none => .error .notFound
  | _ => .error .typeMismatch

/-- Claim-shaped search (C9's wording): for an array, exactly the subset
of elements whose serialized form contains the lowercased query, with its
count; for any other type, the single-element result set when the whole
serialized value contains the query, else the empty set with count 0. -/
def searchSpec (value : Json) (q : String) : SearchResult :=
  let qLower := lowerChars q.data
  match value with
  | .arr xs =>
    let results := xs.filter fun item =>
      containsSeq qLower (lowerChars (dumpsChars item))
    ⟨results, results.length, q⟩
  | _ =>
    if containsSeq qLower (lowerChars (dumpsChars value)) then ⟨[value], 1, q⟩
    else ⟨[], 0, q⟩

/-- History rows of one entry, in insertion order. -/
def historyFor (σ : Store) (config_id : Nat) : List HistoryRow :=
  σ.histories.filter (fun h => h.config_id == config_id)

/-- Run a sequence of `update_config` calls, threading the store. -/
def applyUpdates (val : Validator) (config_id : Nat) (vs : List Json)
    (σ : Store) : Store :=
  match vs with
  | [] => σ
  | v :: rest => applyUpdates val config_id rest (update_config val config_id v σ).2

/-- Do all the updates in the sequence succeed (each one returning the
updated entry rather than an error)? -/
def updatesSucceed (val : Validator) (config_id : Nat) (vs : List Json)
    (σ : Store) : Bool :=
  match vs with
  | [] => true
  | v :: rest =>
    match update_config val config_id v σ with
    | (.ok _, σ') => updatesSucceed val config_id rest σ'
    | (.error _, _) => false

/-- Expected (version, value) pairs of the history records appended by a
sequence of updates on an entry whose version was `m` beforehand. -/
def updateLedger (m : Nat) : List Json → List (Nat × Json)
  | [] => []
  | v :: rest => (m + 1, v) :: updateLedger (m + 1) rest

/-- Validator that accepts everything (used by concrete witness runs). -/
def acceptAll : Validator := fun _ _ => true

/-- Sample validator for witness runs: accepts only an object whose
`port` field is an integer (the shape of the spec's port scenario). -/
def portValidator : Validator := fun v _ =>
  match v with
  | .obj [("port", .num _)] => true
  | _ => false

/-- Secret provider that returns the secret name itself (used by
counterexample runs, to expose which name was requested). -/
def echoProvider : SecretProvider := fun name => .ok name

/-- Secret provider that always fails, as when no vault is configured. -/
def failProvider : SecretProvider := fun name =>
  .error ("Azure Key Vault not configured. Cannot resolve vault://" ++ name ++ ".")

/-- Demo store: one namespace `global` (id 1). -/
def fixNs : Store := (create_namespace "global" "demo" emptyStore).2

/-- Demo store: namespace `global` plus a schema row `app` version 1
(id 1), seeded directly — a legitimate database state (the column layout is
`app/models.py`), since the broken create handler persists nothing. -/
def fixBase : Store :=
  { fixNs with
    schemas := [⟨1, "app", "schema v1", 1, .obj [], true, false⟩]
    nextSchemaId := 2 }

/-- Demo store after soft-deleting the namespace. -/
def fixNsDeleted : Store := (delete_namespace 1 fixBase).2

/-- Demo store after soft-deleting the schema. -/
def fixSchemaDeleted : Store := (delete_schema 1 fixBase).2

/-- Demo store with one config entry `k` (id 1, version 1, value 1). -/
def fixWithEntry : Store := (create_config acceptAll 1 1 "k" (.num 1) fixBase).2

/-- Demo store after soft-deleting the entry. -/
def fixEntryDeleted : Store := (delete_config 1 fixWithEntry).2

/-- Demo store with a live entry under a soft-deleted namespace. -/
def fixNsDeletedEntry : Store := (delete_namespace 1 fixWithEntry).2


theorem containsSeq_iff {n h : List Char} : containsSeq n h = true ↔ n <:+: h := by
  simp [containsSeq]

theorem containsSeq_eq_false {n h : List Char} :
    containsSeq n h = false ↔ ¬ n <:+: h := by
  simp [containsSeq]

/-- Structural induction for `Json` with member hypotheses for the nested
lists (the auto-generated recursor of the nested inductive is awkward). -/
theorem Json.indOn {motive : Json → Prop}
    (hnull : motive .null) (hbool : ∀ b, motive (.bool b))
    (hnum : ∀ n, motive (.num n)) (hstr : ∀ s, motive (.str s))
    (harr : ∀ xs, (∀ x ∈ xs, motive x) → motive (.arr xs))
    (hobj : ∀ fs, (∀ kv ∈ fs, motive kv.2) → motive (.obj fs)) :
    ∀ j, motive j
  | .null => hnull
  | .bool b => hbool b
  | .num n => hnum n
  | .str s => hstr s
  | .arr xs =>
    harr xs fun x hx =>
      Json.indOn hnull hbool hnum hstr harr hobj x
  | .obj fs =>
    hobj fs fun kv hkv =>
      Json.indOn hnull hbool hnum hstr harr hobj kv.2
termination_by j => sizeOf j
decreasing_by
  · have := List.sizeOf_lt_of_mem hx
    simp only [Json.arr.sizeOf_spec]
    omega
  · have h1 := List.sizeOf_lt_of_mem hkv
    obtain ⟨k, v⟩ := kv
    simp only [Json.obj.sizeOf_spec]
    simp only [Prod.mk.sizeOf_spec] at h1
    omega

theorem resolveSecretsList_eq_map (p : SecretProvider) (xs : List Json) :
    resolveSecretsList p xs = xs.map (resolve_secrets p) := by
  induction xs with
  | nil => simp [resolveSecretsList]
  | cons x xs ih => simp [resolveSecretsList, ih]

theorem resolveSecretsFields_eq_map (p : SecretProvider)
    (fs : List (String × Json)) :
    resolveSecretsFields p fs = fs.map fun kv => (kv.1, resolve_secrets p kv.2) := by
  induction fs with
  | nil => simp [resolveSecretsFields]
  | cons kv fs ih =>
    obtain ⟨k, v⟩ := kv
    simp [resolveSecretsFields, ih]

theorem dumpsList_eq_map (xs : List Json) :
    dumpsList xs = xs.map dumpsChars := by
  induction xs with
  | nil => simp [dumpsList]
  | cons x xs ih => simp [dumpsList, ih]

theorem vaultMatch_some_isPrefixOf {s : String} {name : String}
    (h : vaultMatch s = some name) : vaultPat.isPrefixOf s.data = true := by
  by_contra hfalse
  simp only [Bool.not_eq_true] at hfalse
  simp [vaultMatch, vaultMatchChars, hfalse] at h

theorem escChars_append (a b : List Char) :
    escChars (a ++ b) = escChars a ++ escChars b := by
  induction a with
  | nil => simp [escChars]
  | cons c cs ih => simp [escChars, ih]

theorem escChars_vault_prefix (r : List Char) :
    escChars (vaultPat ++ r) = vaultPat ++ escChars r := by
  rw [escChars_append]
  have : escChars vaultPat = vaultPat := by decide
  rw [this]

theorem joinSep_piece_of_mem {sep : List Char} {l : List Char} {ls : List (List Char)}
    (h : l ∈ ls) : l <:+: joinSep sep ls := by
  induction ls with
  | nil => cases h
  | cons x xs ih =>
    cases xs with
    | nil =>
      rcases List.mem_singleton.mp h with rfl
      exact List.infix_refl l
    | cons y ys =>
      rcases List.mem_cons.mp h with rfl | hmem
      · exact ⟨[], sep ++ joinSep sep (y :: ys), by simp [joinSep]⟩
      · exact (ih hmem).trans ⟨x ++ sep, [], by simp [joinSep]⟩

theorem dumps_infix_of_mem_arr {x : Json} {xs : List Json} (h : x ∈ xs) :
    dumpsChars x <:+: dumpsChars (.arr xs) := by
  have h1 : dumpsChars x ∈ dumpsList xs := by
    rw [dumpsList_eq_map]
    exact List.mem_map_of_mem dumpsChars h
  have h2 := @joinSep_piece_of_mem [',', ' '] _ _ h1
  obtain ⟨s, t, e⟩ := h2
  exact ⟨'[' :: s, t ++ [']'], by simp [dumpsChars, ← e]⟩

theorem dumps_infix_of_mem_obj {k : String} {v : Json}
    {fs : List (String × Json)} (h : (k, v) ∈ fs) :
    dumpsChars v <:+: dumpsChars (.obj fs) := by
  have h1 : ('"' :: escChars k.data ++ ['"', ':', ' '] ++ dumpsChars v) ∈ dumpsFields fs := by
    induction fs with
    | nil => cases h
    | cons kv fs ih =>
      rcases List.mem_cons.mp h with rfl | hmem
      · simp [dumpsFields]
      · obtain ⟨k', v'⟩ := kv
        simp only [dumpsFields, List.mem_cons]
        exact Or.inr (ih hmem)
  have h2 := @joinSep_piece_of_mem [',', ' '] _ _ h1
  obtain ⟨s, t, e⟩ := h2
  refine ⟨'\x7b' :: s ++ ('"' :: escChars k.data ++ ['"', ':', ' ']), t ++ ['\x7d'], ?_⟩
  simp only [dumpsChars, ← e]
  simp

theorem vaultPat_infix_dumps_str {s : String}
    (h : vaultPat.isPrefixOf s.data = true) :
    vaultPat <:+: dumpsChars (.str s) := by
  obtain ⟨r, hr⟩ := List.isPrefixOf_iff_prefix.mp h
  refine ⟨['"'], escChars r ++ ['"'], ?_⟩
  simp only [dumpsChars, ← hr, escChars_vault_prefix]
  simp

theorem hasVaultStringList_eq_false {xs : List Json} :
    hasVaultStringList xs = false ↔ ∀ x ∈ xs, hasVaultString x = false := by
  induction xs with
  | nil => simp [hasVaultStringList]
  | cons x xs ih => simp [hasVaultStringList, ih]

theorem hasVaultStringFields_eq_false {fs : List (String × Json)} :
    hasVaultStringFields fs = false ↔
      ∀ kv ∈ fs, containsSeq vaultPat kv.1.data = false ∧ hasVaultString kv.2 = false := by
  induction fs with
  | nil => simp [hasVaultStringFields]
  | cons kv fs ih =>
    obtain ⟨k, v⟩ := kv
    simp [hasVaultStringFields, ih]

theorem resolve_id_of_no_vault_string (p : SecretProvider) :
    ∀ v : Json, hasVaultString v = false → resolve_secrets p v = v := by
  intro v
  induction v using Json.indOn with
  | hnull => intro _; rfl
  | hbool b => intro _; rfl
  | hnum n => intro _; rfl
  | hstr s =>
    intro h
    have hm : vaultMatch s = none := by
      cases hmatch : vaultMatch s with
      | none => rfl
      | some name =>
        have hpre := vaultMatch_some_isPrefixOf hmatch
        have hinf : vaultPat <:+: s.data :=
          (List.isPrefixOf_iff_prefix.mp hpre).isInfix
        have : containsSeq vaultPat s.data = true := containsSeq_iff.mpr hinf
        simp [hasVaultString, this] at h
    simp [resolve_secrets, hm]
  | harr xs ih =>
    intro h
    have hall := hasVaultStringList_eq_false.mp (by simpa [hasVaultString] using h)
    simp only [resolve_secrets, resolveSecretsList_eq_map]
    have : xs.map (resolve_secrets p) = xs := by
      rw [List.map_congr_left (fun x hx => ih x hx (hall x hx))]
      exact List.map_id xs
    rw [this]
  | hobj fs ih =>
    intro h
    have hall := hasVaultStringFields_eq_false.mp (by simpa [hasVaultString] using h)
    simp only [resolve_secrets, resolveSecretsFields_eq_map]
    have : (fs.map fun kv => (kv.1, resolve_secrets p kv.2)) = fs := by
      rw [List.map_congr_left
        (fun kv hkv => by rw [ih kv hkv (hall kv hkv).2])]
      exact List.map_id fs
    rw [this]

theorem resolve_id_of_no_reference (p : SecretProvider) :
    ∀ v : Json, has_vault_references v = false → resolve_secrets p v = v := by
  intro v
  induction v using Json.indOn with
  | hnull => intro _; rfl
  | hbool b => intro _; rfl
  | hnum n => intro _; rfl
  | hstr s =>
    intro h
    have hm : vaultMatch s = none := by
      cases hmatch : vaultMatch s with
      | none => rfl
      | some name =>
        have hpre := vaultMatch_some_isPrefixOf hmatch
        have : containsSeq vaultPat (dumpsChars (.str s)) = true :=
          containsSeq_iff.mpr (vaultPat_infix_dumps_str hpre)
        simp [has_vault_references, this] at h
    simp [resolve_secrets, hm]
  | harr xs ih =>
    intro h
    have hnot := containsSeq_eq_false.mp (by simpa [has_vault_references] using h)
    have hall : ∀ x ∈ xs, has_vault_references x = false := by
      intro x hx
      refine containsSeq_eq_false.mpr fun hinf => ?_
      exact hnot (hinf.trans (dumps_infix_of_mem_arr hx))
    simp only [resolve_secrets, resolveSecretsList_eq_map]
    have : xs.map (resolve_secrets p) = xs := by
      rw [List.map_congr_left (fun x hx => ih x hx (hall x hx))]
      exact List.map_id xs
    rw [this]
  | hobj fs ih =>
    intro h
    have hnot := containsSeq_eq_false.mp (by simpa [has_vault_references] using h)
    have hall : ∀ kv ∈ fs, has_vault_references kv.2 = false := by
      intro kv hkv
      refine containsSeq_eq_false.mpr fun hinf => ?_
      obtain ⟨k, v⟩ := kv
      exact hnot (hinf.trans (dumps_infix_of_mem_obj hkv))
    simp only [resolve_secrets, resolveSecretsFields_eq_map]
    have : (fs.map fun kv => (kv.1, resolve_secrets p kv.2)) = fs := by
      rw [List.map_congr_left
        (fun kv hkv => by rw [ih kv hkv (hall kv hkv)])]
      exact List.map_id fs
    rw [this]

theorem vaultMatchChars_eq_spec (cs : List Char) :
    vaultMatchChars cs = vaultNameSpecChars cs := by
  unfold vaultMatchChars vaultNameSpecChars
  cases hpre : vaultPat.isPrefixOf cs with
  | false => simp
  | true =>
    simp only [if_true]
    generalize cs.drop 8 = rest
    by_cases hempty : rest = []
    · subst hempty
      simp
    · have hoff : rest.isEmpty = false := by
        simpa [List.isEmpty_iff] using hempty
      by_cases hnl : rest.contains '\n' = true
      · have hmem : '\n' ∈ rest := by simpa using hnl
        by_cases hlast : rest.getLast? = some '\n'
        · simp [hoff, hnl, hlast, hmem]
        · simp [hoff, hnl, hlast, hmem]
      · have hnlf : rest.contains '\n' = false := by simpa using hnl
        have hlast : ¬ rest.getLast? = some '\n' := by
          intro hc
          have hmem : '\n' ∈ rest := List.mem_of_mem_getLast? (by simp [hc])
          have : rest.contains '\n' = true := by simpa using hmem
          rw [this] at hnlf
          cases hnlf
        simp [hoff, hnlf, hlast]

theorem vaultMatch_eq_vaultNameSpec (s : String) :
    vaultMatch s = vaultNameSpec s := by
  unfold vaultMatch vaultNameSpec
  rw [vaultMatchChars_eq_spec]

theorem lookupByField_eq_spec (value : Json) (idField target : String) :
    lookupByField value idField target = lookupByFieldSpec value idField target := by
  cases value with
  | arr xs =>
    simp only [lookupByField, lookupByFieldSpec]
    induction xs with
    | nil => rfl
    | cons item rest ih =>
      cases item with
      | obj fs =>
        by_cases hm : (pyStr (dictGet fs idField) == target) = true
        · simp [lookupScan, List.find?_cons, hm]
        · have hm' : (pyStr (dictGet fs idField) == target) = false := by
            simpa using hm
          simp [lookupScan, List.find?_cons, hm', ih]
      | null => simpa [lookupScan, List.find?_cons] using ih
      | bool b => simpa [lookupScan, List.find?_cons] using ih
      | num n => simpa [lookupScan, List.find?_cons] using ih
      | str s => simpa [lookupScan, List.find?_cons] using ih
      | arr ys => simpa [lookupScan, List.find?_cons] using ih
  | null => rfl
  | bool b => rfl
  | num n => rfl
  | str s => rfl
  | obj fs => rfl

theorem searchArray_member_lift {q : List Char} {item : Json} {xs : List Json}
    (hmem : item ∈ xs)
    (hit : containsSeq q (lowerChars (dumpsChars item)) = true) :
    containsSeq q (lowerChars (dumpsChars (.arr xs))) = true := by
  refine containsSeq_iff.mpr ?_
  have h1 : q <:+: lowerChars (dumpsChars item) := containsSeq_iff.mp hit
  have h2 : dumpsChars item <:+: dumpsChars (.arr xs) :=
    dumps_infix_of_mem_arr hmem
  exact h1.trans (List.IsInfix.map Char.toLower h2)

theorem searchValue_eq_spec (value : Json) (q : String) :
    searchValue value q = searchSpec value q := by
  cases value with
  | arr xs =>
    simp only [searchValue, searchSpec]
    by_cases hc :
        containsSeq (lowerChars q.data) (lowerChars (dumpsChars (.arr xs))) = true
    · simp [hc]
    · have hc' :
          containsSeq (lowerChars q.data) (lowerChars (dumpsChars (.arr xs))) = false := by
        simpa using hc
      have hfilter :
          (xs.filter fun item =>
            containsSeq (lowerChars q.data) (lowerChars (dumpsChars item))) = [] := by
        refine List.filter_eq_nil_iff.mpr fun item hmem hhit => ?_
        have := searchArray_member_lift hmem hhit
        rw [this] at hc'
        cases hc'
      simp [hc', hfilter]
  | null => rfl
  | bool b => rfl
  | num n => rfl
  | str s => rfl
  | obj fs => rfl

theorem find?_replaceFirst {α : Type} {q : α → Bool} {y : α} {l : List α} {e : α}
    (h : l.find? q = some e) (hy : q y = true) :
    (replaceFirst q y l).find? q = some y := by
  induction l with
  | nil => simp at h
  | cons x xs ih =>
    by_cases hx : q x = true
    · simp [replaceFirst, hx, List.find?_cons, hy]
    · have hx' : q x = false := by simpa using hx
      rw [List.find?_cons] at h
      simp only [hx'] at h
      simp [replaceFirst, hx', List.find?_cons, ih h]

theorem update_config_step {val : Validator} {σ : Store} {e : EntryRow}
    {sch : SchemaRow} {v : Json}
    (he : σ.entries.find? (fun x => x.id == e.id && !x.deleted) = some e)
    (hsch : σ.schemas.find? (fun sc => sc.id == e.schema_id) = some sch)
    (hval : val v sch.struct = true) :
    update_config val e.id v σ =
      (.ok { e with value := v, version := e.version + 1 },
        { σ with
          entries := replaceFirst (fun x => x.id == e.id && !x.deleted)
            { e with value := v, version := e.version + 1 } σ.entries
          histories := σ.histories ++ [⟨σ.nextHistoryId, e.id, v, e.version + 1⟩]
          nextHistoryId := σ.nextHistoryId + 1 }) := by
  simp [update_config, he, hsch, hval]

theorem applyUpdates_spec (val : Validator) (vs : List Json) :
    ∀ (σ : Store) (e : EntryRow) (sch : SchemaRow),
    σ.entries.find? (fun x => x.id == e.id && !x.deleted) = some e →
    e.deleted = false →
    σ.schemas.find? (fun sc => sc.id == e.schema_id) = some sch →
    (∀ v ∈ vs, val v sch.struct = true) →
    updatesSucceed val e.id vs σ = true ∧
    (applyUpdates val e.id vs σ).entries.find? (fun x => x.id == e.id && !x.deleted)
      = some { e with version := e.version + vs.length, value := vs.getLastD e.value } ∧
    (historyFor (applyUpdates val e.id vs σ) e.id).map (fun h => (h.version, h.value))
      = (historyFor σ e.id).map (fun h => (h.version, h.value)) ++
          updateLedger e.version vs := by
  induction vs with
  | nil =>
    intro σ e sch he hd hsch hval
    refine ⟨rfl, ?_, by simp [applyUpdates, updateLedger]⟩
    simpa [applyUpdates] using he
  | cons v rest ih =>
    intro σ e sch he hd hsch hval
    have hvhead : val v sch.struct = true := hval v (List.mem_cons_self v rest)
    have hstep := update_config_step he hsch hvhead
    set e' : EntryRow := { e with value := v, version := e.version + 1 } with hedef
    set σ' : Store :=
      { σ with
        entries := replaceFirst (fun x => x.id == e.id && !x.deleted) e' σ.entries
        histories := σ.histories ++ [⟨σ.nextHistoryId, e.id, v, e.version + 1⟩]
        nextHistoryId := σ.nextHistoryId + 1 } with hsdef
    have hqe' : (fun x : EntryRow => x.id == e.id && !x.deleted) e' = true := by
      simp [hedef, hd]
    have he2 : σ'.entries.find? (fun x => x.id == e'.id && !x.deleted) = some e' := by
      have := find?_replaceFirst he hqe'
      simpa [hsdef] using this
    have hsch2 : σ'.schemas.find? (fun sc => sc.id == e'.schema_id) = some sch := by
      simpa [hsdef, hedef] using hsch
    have hval2 : ∀ w ∈ rest, val w sch.struct = true := fun w hw =>
      hval w (List.mem_cons_of_mem v hw)
    have hd2 : e'.deleted = false := by simp [hedef, hd]
    obtain ⟨ihs, ihfind, ihhist⟩ := ih σ' e' sch he2 hd2 hsch2 hval2
    have hid : e'.id = e.id := rfl
    rw [hid] at ihs ihfind ihhist
    have hres : applyUpdates val e.id (v :: rest) σ = applyUpdates val e.id rest σ' := by
      rw [applyUpdates, hstep]
    have hsucc : updatesSucceed val e.id (v :: rest) σ = updatesSucceed val e.id rest σ' := by
      rw [updatesSucceed, hstep]
    have hh' : historyFor σ' e.id =
        historyFor σ e.id ++ [⟨σ.nextHistoryId, e.id, v, e.version + 1⟩] := by
      simp [hsdef, historyFor, List.filter_append]
    refine ⟨?_, ?_, ?_⟩
    · rw [hsucc]
      exact ihs
    · rw [hres, ihfind]
      simp only [hedef, Option.some.injEq, EntryRow.mk.injEq, List.getLastD_cons,
        List.length_cons, and_true, true_and]
      omega
    · rw [hres, ihhist, hh']
      simp only [hedef, updateLedger, List.map_append, List.append_assoc]
      rfl

example : vaultMatch "vault://db-password" = some "db-password" := by decide

example : vaultMatch "vault://" = none := by decide

example : vaultMatch "vault://x\n" = some "x" := by decide

example : vaultMatch "vault://a\nb" = none := by decide

example : vaultMatch "vault://x\n\n" = none := by decide

example : vaultMatch "see vault://x" = none := by decide

example : dumpsChars (.obj [("a", .num 1)]) = "\x7b\"a\": 1\x7d".data := by decide

example : has_vault_references (.str "x vault://y z") = true := by decide

example :
    searchValue (.arr [.str "apple pie", .str "banana split"]) "PIE" =
      ⟨[.str "apple pie"], 1, "PIE"⟩ := by
  rfl

example :
    lookupByField (.arr [.obj [("usecase_id", .str "UC001")]]) "usecase_id" "UC001" =
      .ok (.obj [("usecase_id", .str "UC001")]) := by
  rfl

example : lookupByField (.arr [.obj [("id", .num 7)]]) "id" "7" =
    .ok (.obj [("id", .num 7)]) := by
  rfl

theorem updateLedger_map_fst (vs : List Json) : ∀ m : Nat,
    (updateLedger m vs).map Prod.fst = List.range' (m + 1) vs.length := by
  induction vs with
  | nil => intro m; simp [updateLedger]
  | cons v rest ih =>
    intro m
    rw [updateLedger, List.map_cons, ih (m + 1), List.length_cons,
      List.range'_succ]

theorem updateLedger_map_snd (vs : List Json) : ∀ m : Nat,
    (updateLedger m vs).map Prod.snd = vs := by
  induction vs with
  | nil => intro m; simp [updateLedger]
  | cons v rest ih =>
    intro m
    rw [updateLedger, List.map_cons, ih (m + 1)]

/-- C6 (counterexample): the claim reads `resolve_secrets` as replacing
every full-string match of `vault://<name>` with `getSecret(name)`, where
the name is everything after the prefix.  Python's `re.match(r'^vault://(.+)$')`
instead (a) strips one trailing newline — `"vault://x\n"` resolves via
`getSecret("x")`, not `getSecret("x\n")` — and (b) refuses an empty name:
`"vault://"` passes through unchanged instead of resolving `getSecret("")`.
`echoProvider` returns the requested name itself, so the claim's reading
would produce `.str "x\n"` and `.str ""` at these inputs. -/
theorem claim_C6_counterexample :
    ("vault://x\n" = "vault://" ++ "x\n") ∧
    (echoProvider "x\n" = .ok "x\n") ∧
    (resolve_secrets echoProvider (.str "vault://x\n") = .str "x") ∧
    ¬(resolve_secrets echoProvider (.str "vault://x\n") = .str "x\n") ∧
    ("vault://" = "vault://" ++ "") ∧
    (echoProvider "" = .ok "") ∧
    (resolve_secrets echoProvider (.str "vault://") = .str "vault://") ∧
    ¬(resolve_secrets echoProvider (.str "vault://") = .str "") := by
  refine ⟨rfl, rfl, rfl, ?_, rfl, rfl, rfl, ?_⟩
  · intro h
    rw [show resolve_secrets echoProvider (.str "vault://x\n") = .str "x" from rfl] at h
    injection h with h'
    exact absurd h' (by decide)
  · intro h
    rw [show resolve_secrets echoProvider (.str "vault://") = .str "vault://" from rfl] at h
    injection h with h'
    exact absurd h' (by decide)

/-- C6 (amended): `resolve_secrets` recursively maps over objects and
arrays; a string is replaced by `provider.getSecret(name)` exactly when it
consists of `vault://` followed by a non-empty newline-free name,
optionally followed by one trailing newline which is excluded from the
name (`vaultNameSpec`); when the provider fails, the single offending
string becomes an inline `[ERROR: ...]` marker and the call never raises;
all other strings and all non-string atoms are returned unchanged. -/
theorem claim_C6_amended (p : SecretProvider) :
    (∀ fs, resolve_secrets p (.obj fs) =
      .obj (fs.map fun kv => (kv.1, resolve_secrets p kv.2))) ∧
    (∀ xs, resolve_secrets p (.arr xs) = .arr (xs.map (resolve_secrets p))) ∧
    (∀ s name, vaultNameSpec s = some name →
      resolve_secrets p (.str s) =
        (match p name with
         | .ok secret => .str secret
         | .error e => .str ("[ERROR: " ++ e ++ "]"))) ∧
    (∀ s, vaultNameSpec s = none → resolve_secrets p (.str s) = .str s) ∧
    (resolve_secrets p .null = .null) ∧
    (∀ b, resolve_secrets p (.bool b) = .bool b) ∧
    (∀ n, resolve_secrets p (.num n) = .num n) := by
  refine ⟨?_, ?_, ?_, ?_, rfl, fun b => rfl, fun n => rfl⟩
  · intro fs
    rw [resolve_secrets, resolveSecretsFields_eq_map]
  · intro xs
    rw [resolve_secrets, resolveSecretsList_eq_map]
  · intro s name h
    have hm : vaultMatch s = some name := by
      rw [vaultMatch_eq_vaultNameSpec, h]
    rw [resolve_secrets, hm]
  · intro s h
    have hm : vaultMatch s = none := by
      rw [vaultMatch_eq_vaultNameSpec, h]
    rw [resolve_secrets, hm]

/-- C6 witness: resolving the spec's example reference through the
always-failing provider and through a concrete provider. -/
theorem claim_C6_witness :
    resolve_secrets echoProvider (.str "vault://db-password") = .str "db-password" := by
  have h := (claim_C6_amended echoProvider).2.2.1 "vault://db-password" "db-password"
    (by decide)
  simpa [echoProvider] using h

/-- C7 (confirmed): a value containing no `vault://` substring in any of
its strings (leaves or object keys) is returned structurally unchanged by
`resolve_secrets`, for every secret provider. -/
theorem claim_C7 (v : Json) (p : SecretProvider)
    (h : hasVaultString v = false) : resolve_secrets p v = v :=
  resolve_id_of_no_vault_string p v h

/-- C7 witness: a concrete reference-free config round-trips through the
always-failing provider. -/
theorem claim_C7_witness :
    hasVaultString (.obj [("database", .str "mydb"), ("port", .num 5432)]) = false ∧
    resolve_secrets failProvider
        (.obj [("database", .str "mydb"), ("port", .num 5432)]) =
      .obj [("database", .str "mydb"), ("port", .num 5432)] :=
  ⟨by decide,
    claim_C7 (.obj [("database", .str "mydb"), ("port", .num 5432)])
      failProvider (by decide)⟩

/-- C8 (confirmed): `lookup_item_in_array`'s scan fails with TypeMismatch
on a non-array value, and on an array returns the first element that is an
object whose `idField` attribute, coerced with Python `str()`, equals the
target id — NotFound when no element matches.  A numeric id in the
document matches the string query (`str(7) = "7"`). -/
theorem claim_C8 :
    (∀ (value : Json) (idField target : String),
      lookupByField value idField target = lookupByFieldSpec value idField target) ∧
    (lookupByField (.arr [.obj [("id", .num 7)]]) "id" "7" =
      .ok (.obj [("id", .num 7)])) ∧
    (∀ idField target, lookupByField (.obj []) idField target = .error .typeMismatch) :=
  ⟨lookupByField_eq_spec, rfl, fun _ _ => rfl⟩

/-- C9 (confirmed): `search_in_config`'s value-level search agrees with the
claim: on an array it returns exactly the subset of elements whose
serialized form contains the lowercased query (with its count), on any
other value the singleton or empty result; the spec's `"PIE"` scenario
evaluates as stated. -/
theorem claim_C9 :
    (∀ (value : Json) (q : String), searchValue value q = searchSpec value q) ∧
    (searchValue (.arr [.str "apple pie", .str "banana split"]) "PIE" =
      ⟨[.str "apple pie"], 1, "PIE"⟩) :=
  ⟨searchValue_eq_spec, rfl⟩

/-- C10 (confirmed): `has_vault_references` strictly over-approximates
resolution.  Whenever `resolve_secrets` changes a value for some provider
the detector fires, yet the detector also fires on values that every
provider leaves unchanged: a string with `vault://` mid-string, and an
object whose key contains `vault://` — detection is a substring test over
`json.dumps` while substitution needs a full-string match on string
leaves. -/
theorem claim_C10 :
    (∀ (v : Json) (p : SecretProvider),
      resolve_secrets p v ≠ v → has_vault_references v = true) ∧
    (has_vault_references (.str "see vault://x mid-string") = true ∧
      ∀ p, resolve_secrets p (.str "see vault://x mid-string") =
        .str "see vault://x mid-string") ∧
    (has_vault_references (.obj [("vault://key", .num 1)]) = true ∧
      ∀ p, resolve_secrets p (.obj [("vault://key", .num 1)]) =
        .obj [("vault://key", .num 1)]) := by
  refine ⟨?_, ⟨by decide, ?_⟩, ⟨by decide, ?_⟩⟩
  · intro v p h
    by_cases hb : has_vault_references v = true
    · exact hb
    · have hb' : has_vault_references v = false := by simpa using hb
      exact absurd (resolve_id_of_no_reference p v hb') h
  · intro p
    have hm : vaultMatch "see vault://x mid-string" = none := by decide
    rw [resolve_secrets, hm]
  · intro p
    rw [resolve_secrets]
    rw [show resolveSecretsFields p [("vault://key", .num 1)] =
      [("vault://key", resolve_secrets p (.num 1))] from rfl]
    rw [show resolve_secrets p (.num 1) = .num 1 from rfl]

/-- C10 witness: a value that genuinely resolves is detected. -/
theorem claim_C10_witness :
    has_vault_references (.str "vault://pw") = true := by
  refine claim_C10.1 (.str "vault://pw") echoProvider ?_
  intro h
  rw [show resolve_secrets echoProvider (.str "vault://pw") = .str "pw" from rfl] at h
  injection h with h'
  exact absurd h' (by decide)

/-- C1 (counterexample): `create_config` filters none of its three checks
by the soft-delete flag.  A soft-deleted namespace is accepted (entry
created), a soft-deleted schema is accepted, and a soft-deleted entry at
the same (namespace, key) still triggers the Conflict error — the opposite
of all three "in particular" parts of the claim. -/
theorem claim_C1_counterexample :
    ((fixNsDeleted.namespaces.map fun ns => (ns.id, ns.deleted)) = [(1, true)]) ∧
    ((create_config acceptAll 1 1 "k" (.num 1) fixNsDeleted).1 =
      .ok ⟨1, 1, 1, "k", .num 1, 1, false⟩) ∧
    ((fixSchemaDeleted.schemas.map fun sc => (sc.id, sc.deleted)) = [(1, true)]) ∧
    ((create_config acceptAll 1 1 "k" (.num 1) fixSchemaDeleted).1 =
      .ok ⟨1, 1, 1, "k", .num 1, 1, false⟩) ∧
    ((fixEntryDeleted.entries.map fun e => (e.namespace_id, e.key, e.deleted)) =
      [(1, "k", true)]) ∧
    ((create_config acceptAll 1 1 "k" (.num 2) fixEntryDeleted).1 = .error .conflict) :=
  ⟨rfl, rfl, rfl, rfl, rfl, rfl⟩

/-- C1 (amended): `create_config` fails NotFound when no namespace row
with the id exists at all (soft-deleted rows are accepted), likewise for
the schema; and it fails Conflict when any entry row — soft-deleted or
not — occupies (namespace, key). -/
theorem claim_C1_amended (val : Validator) (σ : Store) (nsId schId : Nat)
    (key : String) (v : Json) :
    (σ.namespaces.find? (fun ns => ns.id == nsId) = none →
      create_config val nsId schId key v σ = (.error .notFound, σ)) ∧
    (∀ ns, σ.namespaces.find? (fun ns => ns.id == nsId) = some ns →
      σ.schemas.find? (fun sc => sc.id == schId) = none →
      create_config val nsId schId key v σ = (.error .notFound, σ)) ∧
    (∀ ns sch ex, σ.namespaces.find? (fun ns => ns.id == nsId) = some ns →
      σ.schemas.find? (fun sc => sc.id == schId) = some sch →
      σ.entries.find? (fun e => e.namespace_id == nsId && e.key == key) = some ex →
      create_config val nsId schId key v σ = (.error .conflict, σ)) := by
  refine ⟨?_, ?_, ?_⟩
  · intro h
    simp [create_config, h]
  · intro ns h1 h2
    simp [create_config, h1, h2]
  · intro ns sch ex h1 h2 h3
    simp [create_config, h1, h2, h3]

/-- C1 witness: the three amended error clauses at concrete stores. -/
theorem claim_C1_witness :
    create_config acceptAll 5 1 "k" (.num 1) fixBase = (.error .notFound, fixBase) ∧
    create_config acceptAll 1 9 "k" (.num 1) fixBase = (.error .notFound, fixBase) ∧
    create_config acceptAll 1 1 "k" (.num 2) fixEntryDeleted =
      (.error .conflict, fixEntryDeleted) :=
  ⟨(claim_C1_amended acceptAll fixBase 5 1 "k" (.num 1)).1 rfl,
   (claim_C1_amended acceptAll fixBase 1 9 "k" (.num 1)).2.1
     ⟨1, "global", "demo", false⟩ rfl rfl,
   (claim_C1_amended acceptAll fixEntryDeleted 1 1 "k" (.num 2)).2.2
     ⟨1, "global", "demo", false⟩ ⟨1, "app", "schema v1", 1, .obj [], true, false⟩
     ⟨1, 1, 1, "k", .num 1, 1, true⟩ rfl rfl rfl⟩

/-- C2 (counterexample): the `/reference` read path ignores soft deletion.
After soft-deleting the entry (or its namespace), `get_reference_data`
still returns the stored value, and the search/lookup routes still operate
on it — the claim requires NotFound for all of these. -/
theorem claim_C2_counterexample :
    ((fixEntryDeleted.entries.map fun e => (e.id, e.deleted)) = [(1, true)]) ∧
    (get_reference_data failProvider "global" "k" false fixEntryDeleted =
      .ok ⟨"global", "k", .num 1, 1⟩) ∧
    ((fixNsDeletedEntry.namespaces.map fun ns => (ns.id, ns.deleted)) = [(1, true)]) ∧
    (get_reference_data failProvider "global" "k" false fixNsDeletedEntry =
      .ok ⟨"global", "k", .num 1, 1⟩) ∧
    (search_in_config "global" "k" "1" fixEntryDeleted = .ok ⟨[.num 1], 1, "1"⟩) ∧
    (lookup_item_in_array "global" "k" "1" "id" fixEntryDeleted =
      .error .typeMismatch) :=
  ⟨rfl, rfl, rfl, rfl, rfl, rfl⟩

/-- C2 (amended): `read_configs` returns only non-deleted entries and
`read_config` fails NotFound on soft-deleted ones; but the reference-path
reads (`get_reference_data`, `lookup_item_in_array`, `search_in_config`)
filter neither the namespace nor the entry by the soft-delete flag, and
serve whatever row the (namespace-name, key) lookup finds. -/
theorem claim_C2_amended (σ : Store) :
    (∀ skip limit nsf, ∀ e ∈ read_configs skip limit nsf σ, e.deleted = false) ∧
    (∀ i e, read_config i σ = .ok e → e.deleted = false) ∧
    (∀ p nsName key ns cfg,
      σ.namespaces.find? (fun x => x.name == nsName) = some ns →
      σ.entries.find? (fun e => e.namespace_id == ns.id && e.key == key) = some cfg →
      get_reference_data p nsName key false σ =
        .ok ⟨nsName, key, cfg.value, cfg.version⟩) ∧
    (∀ nsName key target idField ns cfg,
      σ.namespaces.find? (fun x => x.name == nsName) = some ns →
      σ.entries.find? (fun e => e.namespace_id == ns.id && e.key == key) = some cfg →
      lookup_item_in_array nsName key target idField σ =
        lookupByField cfg.value idField target) ∧
    (∀ nsName key q ns cfg,
      σ.namespaces.find? (fun x => x.name == nsName) = some ns →
      σ.entries.find? (fun e => e.namespace_id == ns.id && e.key == key) = some cfg →
      search_in_config nsName key q σ = .ok (searchValue cfg.value q)) := by
  refine ⟨?_, ?_, ?_, ?_, ?_⟩
  · intro skip limit nsf e he
    have hbase : e ∈ σ.entries.filter (fun x => !x.deleted) := by
      rcases nsf with _ | n
      · simp only [read_configs] at he
        exact List.mem_of_mem_drop (List.mem_of_mem_take he)
      · simp only [read_configs] at he
        by_cases hz : (n == 0) = true
        · rw [if_pos hz] at he
          exact List.mem_of_mem_drop (List.mem_of_mem_take he)
        · rw [if_neg hz] at he
          have h1 := List.mem_of_mem_drop (List.mem_of_mem_take he)
          exact (List.mem_filter.mp h1).1
    have := (List.mem_filter.mp hbase).2
    simpa using this
  · intro i e h
    cases hf : σ.entries.find? (fun x => x.id == i && !x.deleted) with
    | none => simp [read_config, hf] at h
    | some e' =>
      simp only [read_config, hf, Except.ok.injEq] at h
      subst h
      have hp := List.find?_some hf
      simp at hp
      exact hp.2
  · intro p nsName key ns cfg h1 h2
    simp [get_reference_data, referenceFetch, h1, h2]
  · intro nsName key target idField ns cfg h1 h2
    simp [lookup_item_in_array, referenceFetch, h1, h2]
  · intro nsName key q ns cfg h1 h2
    simp [search_in_config, referenceFetch, h1, h2]

/-- C2 witness: the reference read on a live entry, through the amended
equation. -/
theorem claim_C2_witness :
    get_reference_data failProvider "global" "k" false fixWithEntry =
      .ok ⟨"global", "k", .num 1, 1⟩ :=
  (claim_C2_amended fixWithEntry).2.2.1 failProvider "global" "k"
    ⟨1, "global", "demo", false⟩ ⟨1, 1, 1, "k", .num 1, 1, false⟩ rfl rfl

/-- C3 (confirmed): starting from a live entry at version 1 whose history
holds exactly its creation record, a sequence of N updates — each new
value validating against the entry's own bound schema (`e.schema_id`, the
id fixed at creation; the hypotheses mention no other schema, and
`update_config` re-fetches by that id) — all succeed and leave the entry
at version 1+N holding the last payload, with a history ledger of length
1+N in ascending version order 1..1+N whose k-th update record holds the
k-th payload. -/
theorem claim_C3 (val : Validator) (σ : Store) (e : EntryRow) (sch : SchemaRow)
    (vs : List Json)
    (he : σ.entries.find? (fun x => x.id == e.id && !x.deleted) = some e)
    (hv1 : e.version = 1)
    (hsch : σ.schemas.find? (fun sc => sc.id == e.schema_id) = some sch)
    (hval : ∀ v ∈ vs, val v sch.struct = true)
    (hh : (historyFor σ e.id).map (fun h => (h.version, h.value)) = [(1, e.value)]) :
    updatesSucceed val e.id vs σ = true ∧
    (applyUpdates val e.id vs σ).entries.find? (fun x => x.id == e.id && !x.deleted) =
      some { e with version := 1 + vs.length, value := vs.getLastD e.value } ∧
    (historyFor (applyUpdates val e.id vs σ) e.id).map (fun h => h.version) =
      List.range' 1 (1 + vs.length) ∧
    (historyFor (applyUpdates val e.id vs σ) e.id).map (fun h => h.value) =
      e.value :: vs := by
  have hd : e.deleted = false := by
    have hp := List.find?_some he
    simp at hp
    exact hp
  obtain ⟨hs, hfind, hhist⟩ := applyUpdates_spec val vs σ e sch he hd hsch hval
  refine ⟨hs, ?_, ?_, ?_⟩
  · rw [hfind, hv1]
  · have h1 : (historyFor (applyUpdates val e.id vs σ) e.id).map (fun h => h.version) =
        ((historyFor (applyUpdates val e.id vs σ) e.id).map
          (fun h => (h.version, h.value))).map Prod.fst := by
      rw [List.map_map]
      rfl
    rw [h1, hhist, List.map_append, hh, updateLedger_map_fst, hv1]
    rw [Nat.add_comm 1 vs.length, List.range'_succ]
    rfl
  · have h2 : (historyFor (applyUpdates val e.id vs σ) e.id).map (fun h => h.value) =
        ((historyFor (applyUpdates val e.id vs σ) e.id).map
          (fun h => (h.version, h.value))).map Prod.snd := by
      rw [List.map_map]
      rfl
    rw [h2, hhist, List.map_append, hh, updateLedger_map_snd]
    rfl

/-- C3 witness: two updates on the demo entry go to version 3 with ledger
versions 1,2,3 and values 1,5,7. -/
theorem claim_C3_witness :
    updatesSucceed acceptAll 1 [.num 5, .num 7] fixWithEntry = true ∧
    (applyUpdates acceptAll 1 [.num 5, .num 7] fixWithEntry).entries.find?
        (fun x => x.id == 1 && !x.deleted) =
      some ⟨1, 1, 1, "k", .num 7, 3, false⟩ ∧
    (historyFor (applyUpdates acceptAll 1 [.num 5, .num 7] fixWithEntry) 1).map
        (fun h => h.version) = List.range' 1 3 ∧
    (historyFor (applyUpdates acceptAll 1 [.num 5, .num 7] fixWithEntry) 1).map
        (fun h => h.value) = [.num 1, .num 5, .num 7] :=
  claim_C3 acceptAll fixWithEntry ⟨1, 1, 1, "k", .num 1, 1, false⟩
    ⟨1, "app", "schema v1", 1, .obj [], true, false⟩ [.num 5, .num 7]
    rfl rfl rfl (fun v hv => rfl) rfl

/-- C4 (confirmed): a write whose value fails validation returns
ValidationFailed with the store unchanged (the exception is raised before
any persistence), and a successful write appends the entry together with
exactly one history record carrying the same id, value and version — no
orphan on either side. -/
theorem claim_C4 (val : Validator) (σ : Store) (nsId schId cfgId : Nat)
    (key : String) (v : Json) :
    (∀ ns sch, σ.namespaces.find? (fun x => x.id == nsId) = some ns →
      σ.schemas.find? (fun x => x.id == schId) = some sch →
      σ.entries.find? (fun e => e.namespace_id == nsId && e.key == key) = none →
      val v sch.struct = false →
      create_config val nsId schId key v σ = (.error .validationFailed, σ)) ∧
    (∀ e sch, σ.entries.find? (fun x => x.id == cfgId && !x.deleted) = some e →
      σ.schemas.find? (fun x => x.id == e.schema_id) = some sch →
      val v sch.struct = false →
      update_config val cfgId v σ = (.error .validationFailed, σ)) ∧
    (∀ e σ', create_config val nsId schId key v σ = (.ok e, σ') →
      σ'.entries = σ.entries ++ [e] ∧
      σ'.histories = σ.histories ++ [⟨σ.nextHistoryId, e.id, e.value, e.version⟩] ∧
      e.version = 1 ∧ e.value = v) ∧
    (∀ e σ', update_config val cfgId v σ = (.ok e, σ') →
      σ'.entries = replaceFirst (fun x => x.id == cfgId && !x.deleted) e σ.entries ∧
      σ'.histories = σ.histories ++ [⟨σ.nextHistoryId, e.id, e.value, e.version⟩] ∧
      e.value = v) := by
  refine ⟨?_, ?_, ?_, ?_⟩
  · intro ns sch h1 h2 h3 hv
    simp [create_config, h1, h2, h3, hv]
  · intro e sch h1 h2 hv
    simp [update_config, h1, h2, hv]
  · intro e σ' hsucc
    rcases h1 : σ.namespaces.find? (fun x => x.id == nsId) with _ | ns
    · simp [create_config, h1] at hsucc
    rcases h2 : σ.schemas.find? (fun x => x.id == schId) with _ | sch
    · simp [create_config, h1, h2] at hsucc
    rcases h3 : σ.entries.find? (fun x => x.namespace_id == nsId && x.key == key)
      with _ | ex
    · cases hv : val v sch.struct with
      | false => simp [create_config, h1, h2, h3, hv] at hsucc
      | true =>
        simp only [create_config, h1, h2, h3, hv, if_true, Prod.mk.injEq,
          Except.ok.injEq] at hsucc
        obtain ⟨hee, hσ'⟩ := hsucc
        subst hee
        subst hσ'
        exact ⟨rfl, rfl, rfl, rfl⟩
    · simp [create_config, h1, h2, h3] at hsucc
  · intro e σ' hsucc
    rcases h1 : σ.entries.find? (fun x => x.id == cfgId && !x.deleted) with _ | e0
    · simp [update_config, h1] at hsucc
    rcases h2 : σ.schemas.find? (fun x => x.id == e0.schema_id) with _ | sch
    · simp [update_config, h1, h2] at hsucc
    cases hv : val v sch.struct with
    | false => simp [update_config, h1, h2, hv] at hsucc
    | true =>
      simp only [update_config, h1, h2, hv, if_true, Prod.mk.injEq,
        Except.ok.injEq] at hsucc
      obtain ⟨hee, hσ'⟩ := hsucc
      subst hee
      subst hσ'
      exact ⟨rfl, rfl, rfl⟩

/-- C4 witness: the spec's port scenario fails validation and persists
nothing; the demo create appends the paired entry and history rows. -/
theorem claim_C4_witness :
    (create_config portValidator 1 1 "cfg"
        (.obj [("port", .str "not_an_integer")]) fixBase =
      (.error .validationFailed, fixBase)) ∧
    (fixWithEntry.entries = fixBase.entries ++ [⟨1, 1, 1, "k", .num 1, 1, false⟩]) ∧
    (fixWithEntry.histories = fixBase.histories ++ [⟨1, 1, .num 1, 1⟩]) :=
  ⟨(claim_C4 portValidator fixBase 1 1 0 "cfg"
        (.obj [("port", .str "not_an_integer")])).1
      ⟨1, "global", "demo", false⟩ ⟨1, "app", "schema v1", 1, .obj [], true, false⟩
      rfl rfl rfl rfl,
   ((claim_C4 acceptAll fixBase 1 1 0 "k" (.num 1)).2.2.1
      ⟨1, 1, 1, "k", .num 1, 1, false⟩ fixWithEntry rfl).1,
   (((claim_C4 acceptAll fixBase 1 1 0 "k" (.num 1)).2.2.1
      ⟨1, 1, 1, "k", .num 1, 1, false⟩ fixWithEntry rfl).2).1⟩

/-- C5 (code bug): `registerSchema` can never assign any version, because
every call crashes before persisting anything.  `ConfigSchemaCreate`
(`app/schemas.py`) carries only `name` and `structure`, yet the handler
reads `schema.description` (`app/routers/schemas.py` line 37), raising
`AttributeError` on every request — after the in-session `is_active` flips
but before any commit, so the rollback discards them.  The repository's own
scripts (`seed_data.py`, `seed_complete_demo.py`, `verify_api.py`) post
exactly `{name, structure}` and expect HTTP 200, so the versioning claim is
the intent and the missing request field is the slip.  Evaluated both
universally and at the concrete failing input `registerSchema("app", {})`
on the empty store. -/
theorem claim_C5 :
    (∀ (name : String) (struct : Json) (σ : Store),
      create_schema name struct σ = (.error .internalError, σ)) ∧
    create_schema "app" (.obj []) emptyStore = (.error .internalError, emptyStore) :=
  ⟨fun _ _ _ => rfl, rfl⟩
